import Mathlib

/-!
Verification development for the document-normalization core of the
`parser_service.py` microservice (Markdown / plain-text / HTML native
normalizers, the delegated-binary (docling) adapter, document-id generation,
and the dispatch layer).

Shallow embedding conventions:
* Python strings are modelled as `List Char` (`Str`); bytes as `List Nat`
  (each entry a byte value).
* Python's `str.strip` / `lstrip` are modelled over the ASCII whitespace set
  that Python strips (space, tab, newline, carriage return, vertical tab,
  form feed).  Python's Unicode-whitespace and Unicode-digit extensions are
  modelled by their ASCII cores.
* Wall-clock values (`time.time()`) are threaded as an explicit `now : Nat`
  parameter (unix seconds).  Duration fields (`parsingDurationMs`), being
  pure wall-clock measurements, are omitted from the model.
* The BeautifulSoup HTML-parsing capability and the docling backend are
  external dependencies (not part of this repository); they are modelled by
  the data they deliver to the code under verification: a stream of matched
  elements with their projections (tag, text, classes, direct list items,
  table rows) for HTML, and text items / tabular objects for docling.
-/

abbrev Str := List Char

/-- Characters stripped by Python's `str.strip()` (ASCII core). -/
def pyWsChar (c : Char) : Bool :=
  [32, 9, 10, 13, 11, 12].contains c.toNat

/-- Python `s.lstrip()` restricted to a character predicate. -/
def pyLStripP (p : Char → Bool) (s : Str) : Str := s.dropWhile p

/-- Python `s.rstrip()` restricted to a character predicate. -/
def pyRStripP (p : Char → Bool) (s : Str) : Str :=
  (s.reverse.dropWhile p).reverse

/-- Python `s.strip()` (both ends, whitespace). -/
def pyStrip (s : Str) : Str := pyRStripP pyWsChar (pyLStripP pyWsChar s)

/-- Split on a single character; mirrors Python `s.split(c)` for a one-char
separator (e.g. `content.split('\n')` in `parse_markdown_content`). -/
def splitOnCharAux (sep : Char) : Str → List Str
  | [] => [[]]
  | c :: cs =>
    match splitOnCharAux sep cs with
    | [] => if c = sep then [[], []] else [[c]]
    | h :: t => if c = sep then [] :: h :: t else (c :: h) :: t

def splitOnChar (sep : Char) (s : Str) : List Str := splitOnCharAux sep s

def consHead (c : Char) : List Str → List Str
  | [] => [[c]]
  | h :: t => (c :: h) :: t

/-- Fuel-driven worker for splitting on a multi-character separator. -/
def splitSepAux (sep : Str) : Nat → Str → List Str
  | _, [] => [[]]
  | 0, s => [s]
  | fuel + 1, c :: cs =>
    if sep.isPrefixOf (c :: cs) then
      [] :: splitSepAux sep fuel (List.drop (sep.length - 1) cs)
    else
      consHead c (splitSepAux sep fuel cs)

/-- Python `s.split(sep)` for a non-empty literal separator (leftmost,
non-overlapping); used for `content.split('\n\n')` in `parse_txt_content`. -/
def pySplitOn (sep : Str) (s : Str) : List Str :=
  if sep = [] then [s] else splitSepAux sep s.length s

/-- `'\n'.join(xs)` etc. -/
def joinWith (sep : Str) (xs : List Str) : Str := List.intercalate sep xs

/-- Lower-case a modelled string (Python `str.lower()`, ASCII core). -/
def strToLower (s : Str) : Str := s.map Char.toLower

/-- Python's `sub in s` substring containment. -/
def strContainsSub (pat : Str) : Str → Bool
  | [] => decide (pat = [])
  | c :: cs => pat.isPrefixOf (c :: cs) || strContainsSub pat cs

-- ============================================
-- Canonical document model (Pydantic models from parser_service.py)
-- ============================================

structure TableCell where
  content : Str
  row : Nat
  col : Nat
  rowSpan : Nat := 1
  colSpan : Nat := 1
  isHeader : Bool := false
deriving Repr, DecidableEq

structure TableStructure where
  rows : Nat
  cols : Nat
  headers : List Str
  cells : List TableCell
  markdown : Str
  hasHeader : Bool
deriving Repr, DecidableEq

structure ContentBlock where
  type : String
  content : Str
  pageNumber : Option Nat := none
  position : Nat
  headingLevel : Option Nat := none
  listType : Option String := none
  listItems : Option (List Str) := none
  table : Option TableStructure := none
  codeLanguage : Option Str := none
deriving Repr, DecidableEq

/-- Outline entries.  The schema's recursive `children` field is always empty
for every parser in this file (the native parsers never populate it), so it
is omitted from the model. -/
structure DocumentOutlineItem where
  title : Str
  level : Nat
  pageNumber : Option Nat := none
  position : Nat
deriving Repr, DecidableEq

structure ParsingWarning where
  code : String
  message : Str
  pageNumber : Option Nat := none
  position : Option Nat := none
  severity : String := "warning"
deriving Repr, DecidableEq

structure DocumentParseMetadata where
  filename : Str
  format : String
  fileSize : Nat
  pageCount : Nat
  title : Option Str := none
  parser : String
deriving Repr, DecidableEq

structure ParsedDocument where
  documentId : Str
  metadata : DocumentParseMetadata
  blocks : List ContentBlock
  fullText : Str
  outline : List DocumentOutlineItem
  warnings : List ParsingWarning
  success : Bool
deriving Repr, DecidableEq

-- ============================================
-- UTF-8 encoding (Python `str.encode()`) and SHA-256 (hashlib.sha256)
-- ============================================

/-- UTF-8 encode one scalar value. -/
def utf8EncodeChar (c : Char) : List Nat :=
  let n := c.toNat
  if n < 0x80 then [n]
  else if n < 0x800 then [0xC0 + n / 64, 0x80 + n % 64]
  else if n < 0x10000 then
    [0xE0 + n / 4096, 0x80 + (n / 64) % 64, 0x80 + n % 64]
  else
    [0xF0 + n / 262144, 0x80 + (n / 4096) % 64, 0x80 + (n / 64) % 64,
     0x80 + n % 64]

/-- Python `s.encode()` (UTF-8). -/
def utf8Encode (s : Str) : List Nat := s.foldr (fun c acc => utf8EncodeChar c ++ acc) []

def add32 (a b : Nat) : Nat := (a + b) % 4294967296

def rotr32 (n x : Nat) : Nat := x / 2 ^ n + x % 2 ^ n * 2 ^ (32 - n)

def shr32 (n x : Nat) : Nat := x / 2 ^ n

def not32 (x : Nat) : Nat := 4294967295 - x % 4294967296

def shaCh (e f g : Nat) : Nat := Nat.xor (Nat.land e f) (Nat.land (not32 e) g)

def shaMaj (a b c : Nat) : Nat :=
  Nat.xor (Nat.xor (Nat.land a b) (Nat.land a c)) (Nat.land b c)

def shaBigSigma0 (x : Nat) : Nat :=
  Nat.xor (Nat.xor (rotr32 2 x) (rotr32 13 x)) (rotr32 22 x)

def shaBigSigma1 (x : Nat) : Nat :=
  Nat.xor (Nat.xor (rotr32 6 x) (rotr32 11 x)) (rotr32 25 x)

def shaSmallSigma0 (x : Nat) : Nat :=
  Nat.xor (Nat.xor (rotr32 7 x) (rotr32 18 x)) (shr32 3 x)

def shaSmallSigma1 (x : Nat) : Nat :=
  Nat.xor (Nat.xor (rotr32 17 x) (rotr32 19 x)) (shr32 10 x)

def shaK : List Nat :=
  [1116352408, 1899447441, 3049323471, 3921009573, 961987163,
   1508970993, 2453635748, 2870763221, 3624381080, 310598401,
   607225278, 1426881987, 1925078388, 2162078206, 2614888103,
   3248222580, 3835390401, 4022224774, 264347078, 604807628,
   770255983, 1249150122, 1555081692, 1996064986, 2554220882,
   2821834349, 2952996808, 3210313671, 3336571891, 3584528711,
   113926993, 338241895, 666307205, 773529912, 1294757372,
   1396182291, 1695183700, 1986661051, 2177026350, 2456956037,
   2730485921, 2820302411, 3259730800, 3345764771, 3516065817,
   3600352804, 4094571909, 275423344, 430227734, 506948616,
   659060556, 883997877, 958139571, 1322822218, 1537002063,
   1747873779, 1955562222, 2024104815, 2227730452, 2361852424,
   2428436474, 2756734187, 3204031479, 3329325298]

structure SHAState where
  a : Nat
  b : Nat
  c : Nat
  d : Nat
  e : Nat
  f : Nat
  g : Nat
  h : Nat
deriving Repr, DecidableEq

def shaInit : SHAState :=
  ⟨1779033703, 3144134277, 1013904242, 2773480762,
   1359893119, 2600822924, 528734635, 1541459225⟩

def shaRound (st : SHAState) (kw : Nat × Nat) : SHAState :=
  let t1 := add32 (add32 (add32 st.h (shaBigSigma1 st.e))
                         (add32 (shaCh st.e st.f st.g) kw.1)) kw.2
  let t2 := add32 (shaBigSigma0 st.a) (shaMaj st.a st.b st.c)
  ⟨add32 t1 t2, st.a, st.b, st.c, add32 st.d t1, st.e, st.f, st.g⟩

/-- Extend the 16 message words to 64 (accumulator kept reversed). -/
def shaSchedAux : Nat → List Nat → List Nat
  | 0, acc => acc
  | n + 1, acc =>
    shaSchedAux n
      (add32 (add32 (shaSmallSigma1 (acc.getD 1 0)) (acc.getD 6 0))
             (add32 (shaSmallSigma0 (acc.getD 14 0)) (acc.getD 15 0)) :: acc)

def shaSchedule (w16 : List Nat) : List Nat :=
  (shaSchedAux 48 w16.reverse).reverse

def shaAddStates (x y : SHAState) : SHAState :=
  ⟨add32 x.a y.a, add32 x.b y.b, add32 x.c y.c, add32 x.d y.d,
   add32 x.e y.e, add32 x.f y.f, add32 x.g y.g, add32 x.h y.h⟩

def shaCompress (st : SHAState) (block : List Nat) : SHAState :=
  shaAddStates st ((shaK.zip (shaSchedule block)).foldl shaRound st)

/-- Big-endian byte rendering of `v`, exactly `n` bytes. -/
def natToBytesBE : Nat → Nat → List Nat
  | 0, _ => []
  | n + 1, v => natToBytesBE n (v / 256) ++ [v % 256]

/-- SHA-256 padding of a byte message. -/
def shaPad (m : List Nat) : List Nat :=
  m ++ [0x80] ++ List.replicate ((119 - m.length % 64) % 64) 0 ++
    natToBytesBE 8 (m.length * 8)

def chunk64 : Nat → List Nat → List (List Nat)
  | 0, _ => []
  | _, [] => []
  | fuel + 1, bs => bs.take 64 :: chunk64 fuel (bs.drop 64)

/-- Group a padded message into 32-bit big-endian words. -/
def bytesToWords : List Nat → List Nat
  | b1 :: b2 :: b3 :: b4 :: rest =>
    (((b1 * 256 + b2) * 256 + b3) * 256 + b4) :: bytesToWords rest
  | _ => []

/-- SHA-256 digest (32 bytes) of a byte message (`hashlib.sha256`). -/
def sha256 (m : List Nat) : List Nat :=
  let padded := shaPad m
  let final := (chunk64 padded.length padded).foldl
    (fun st blk => shaCompress st (bytesToWords blk)) shaInit
  natToBytesBE 4 final.a ++ natToBytesBE 4 final.b ++ natToBytesBE 4 final.c ++
  natToBytesBE 4 final.d ++ natToBytesBE 4 final.e ++ natToBytesBE 4 final.f ++
  natToBytesBE 4 final.g ++ natToBytesBE 4 final.h

def hexDigitChar (n : Nat) : Char := "0123456789abcdef".toList.getD n '0'

/-- Lower-case hex rendering of a byte list (`hexdigest()`). -/
def bytesToHex : List Nat → Str
  | [] => []
  | b :: bs => hexDigitChar (b / 16) :: hexDigitChar (b % 16) :: bytesToHex bs

/-- `generate_document_id` (parser_service.py lines 176-181):
`f"doc_{int(time.time())}_{hasher.hexdigest()[:12]}"` where the hasher is fed
the content bytes then the UTF-8 encoded filename. -/
def generate_document_id (content : List Nat) (filename : Str) (now : Nat) : Str :=
  "doc_".toList ++ Nat.toDigits 10 now ++ "_".toList ++
    (bytesToHex (sha256 (content ++ utf8Encode filename))).take 12

-- ============================================
-- Markdown normalizer (`parse_markdown_content`, lines 184-332)
-- ============================================

structure MdState where
  blocks : List ContentBlock
  outline : List DocumentOutlineItem
  position : Nat
  currentParagraph : List Str
deriving Repr, DecidableEq

def mdInitState : MdState := ⟨[], [], 0, []⟩

/-- The paragraph-flush step repeated at lines 199-209, 235-245, 261-271,
291-302 and 305-313: join the buffer with newlines, strip, emit a paragraph
block if non-empty, clear the buffer.  (The final flush at lines 305-313 does
not advance `position`, but `position` is not part of the returned document,
so the uniform advance is observationally identical.) -/
def flushParagraph (st : MdState) : MdState :=
  match st.currentParagraph with
  | [] => st
  | _ =>
    let paraText := pyStrip (joinWith ['\n'] st.currentParagraph)
    if paraText ≠ [] then
      { st with
        blocks := st.blocks ++
          [{ type := "paragraph", content := paraText,
             position := st.position, pageNumber := some 1 }],
        position := st.position + 1,
        currentParagraph := [] }
    else
      { st with currentParagraph := [] }

/-- Number of leading '#' characters of a line. -/
def countLeadingHashes (line : Str) : Nat :=
  (line.takeWhile (fun c => c == '#')).length

/-- Characters of the Python strip set `'-*+0123456789. '` at line 274. -/
def listMarkerChar (c : Char) : Bool :=
  c == '-' || c == '*' || c == '+' || c.isDigit || c == '.' || c == ' '

/-- The list-detection condition at line 259:
`line.strip().startswith(('- ', '* ', '+ ')) or
 (line.strip() and line.strip()[0].isdigit() and '. ' in line[:4])`.
Note the substring test `'. ' in line[:4]` is on the raw (unstripped) line. -/
def isListLine (line : Str) : Bool :=
  let t := pyStrip line
  ("- ".toList.isPrefixOf t || "* ".toList.isPrefixOf t ||
   "+ ".toList.isPrefixOf t) ||
  (match t with
   | [] => false
   | c :: _ => c.isDigit && strContainsSub ". ".toList (line.take 4))

/-- `'ordered' if line.strip()[0].isdigit() else 'unordered'` (line 273). -/
def listTypeOf (line : Str) : String :=
  match pyStrip line with
  | [] => "unordered"
  | c :: _ => if c.isDigit then "ordered" else "unordered"

/-- `line.strip().lstrip('-*+0123456789. ').strip()` (line 274). -/
def listItemText (line : Str) : Str :=
  pyStrip (pyLStripP listMarkerChar (pyStrip line))

/-- One iteration of the `for line in lines` loop (lines 195-302). -/
def processMdLine (st : MdState) (line : Str) : MdState :=
  if "#".toList.isPrefixOf line then
    let st := flushParagraph st
    let level := min (countLeadingHashes line) 6
    let headingText := pyStrip (line.dropWhile (fun c => c == '#'))
    { st with
      blocks := st.blocks ++
        [{ type := "heading", content := headingText,
           position := st.position, headingLevel := some level,
           pageNumber := some 1 }],
      outline := st.outline ++
        [{ title := headingText, level := level,
           position := st.position, pageNumber := some 1 }],
      position := st.position + 1 }
  else if "```".toList.isPrefixOf line then
    let st := flushParagraph st
    let lang := pyStrip (line.drop 3)
    { st with
      blocks := st.blocks ++
        [{ type := "code", content := [],
           position := st.position,
           codeLanguage := if lang = [] then none else some lang,
           pageNumber := some 1 }],
      position := st.position + 1 }
  else if isListLine line then
    let st := flushParagraph st
    { st with
      blocks := st.blocks ++
        [{ type := "list", content := listItemText line,
           position := st.position, listType := some (listTypeOf line),
           listItems := some [listItemText line], pageNumber := some 1 }],
      position := st.position + 1 }
  else if pyStrip line ≠ [] then
    { st with currentParagraph := st.currentParagraph ++ [line] }
  else
    flushParagraph st

/-- `parse_markdown_content` (lines 184-332). -/
def parse_markdown_content (content : Str) (filename : Str) (now : Nat) :
    ParsedDocument :=
  let lines := splitOnChar '\n' content
  let final := flushParagraph (lines.foldl processMdLine mdInitState)
  { documentId := generate_document_id (utf8Encode content) filename now,
    metadata :=
      { filename := filename, format := "md",
        fileSize := (utf8Encode content).length, pageCount := 1,
        parser := "native-md" },
    blocks := final.blocks,
    fullText := content,
    outline := final.outline,
    warnings := [],
    success := true }

-- ============================================
-- Plain-text normalizer (`parse_txt_content`, lines 335-372)
-- ============================================

/-- The `for para in paragraphs` loop (lines 344-353). -/
def txtStep (st : List ContentBlock × Nat) (para : Str) :
    List ContentBlock × Nat :=
  let paraText := pyStrip para
  if paraText ≠ [] then
    (st.1 ++ [{ type := "paragraph", content := paraText,
                position := st.2, pageNumber := some 1 }], st.2 + 1)
  else st

/-- `parse_txt_content` (lines 335-372). -/
def parse_txt_content (content : Str) (filename : Str) (now : Nat) :
    ParsedDocument :=
  let paragraphs := pySplitOn "\n\n".toList content
  let final := paragraphs.foldl txtStep ([], 0)
  { documentId := generate_document_id (utf8Encode content) filename now,
    metadata :=
      { filename := filename, format := "txt",
        fileSize := (utf8Encode content).length, pageCount := 1,
        parser := "native-txt" },
    blocks := final.1,
    fullText := content,
    outline := [],
    warnings := [],
    success := true }

-- ============================================
-- HTML normalizer (`parse_html_content`, lines 375-541)
-- ============================================

/-- One `th`/`td` cell as BeautifulSoup hands it to the table loop
(lines 467-469): its tag (`col.name == 'th'`) and its `get_text()`. -/
structure HCell where
  isTh : Bool
  text : Str
deriving Repr, DecidableEq

/-- One element matched by `body.find_all([...])` (line 396), reduced to the
projections the loop body reads: `element.name`, `element.get_text()`,
`element.get('class')`, the `get_text()` of each direct `li` child
(line 447), and the `tr` rows with their `th`/`td` cells (lines 461-468).
BeautifulSoup itself is an external dependency; it is modelled by this
delivered data. -/
structure HElem where
  tag : String
  textContent : Str := []
  classes : List Str := []
  listItems : List Str := []
  tableRows : List (List HCell) := []
deriving Repr, DecidableEq

/-- The nested cell loop at lines 466-480: enumerate rows top-to-bottom and
cells left-to-right; a cell is a header cell iff its tag is `th` or it sits
in row 0. -/
def htmlTableCells (rows : List (List HCell)) : List TableCell :=
  rows.enum.flatMap (fun ir =>
    ir.2.enum.map (fun jc =>
      { content := pyStrip jc.2.text, row := ir.1, col := jc.1,
        isHeader := jc.2.isTh || ir.1 == 0 }))

/-- `headers` after the cell loop: a text is appended exactly when
`is_header and row_idx == 0` (lines 472-473), and every row-0 cell has
`is_header` true, so `headers` is row 0's stripped cell texts in order. -/
def htmlTableHeaders (rows : List (List HCell)) : List Str :=
  match rows with
  | [] => []
  | r0 :: _ => r0.map (fun c => pyStrip c.text)

/-- The markdown regeneration at lines 482-493. -/
def htmlTableMarkdown (rows : List (List HCell)) : Str :=
  let headers := htmlTableHeaders rows
  let cells := htmlTableCells rows
  let headerLines : List Str :=
    if headers = [] then []
    else
      ["| ".toList ++ joinWith " | ".toList headers ++ " |".toList,
       "| ".toList ++
         joinWith " | ".toList (List.replicate headers.length "---".toList) ++
         " |".toList]
  let dataLines : List Str :=
    ((List.range rows.length).drop (if headers = [] then 0 else 1)).filterMap
      (fun ri =>
        let rowCells := (cells.filter (fun c => c.row == ri)).map (·.content)
        if rowCells = [] then none
        else some ("| ".toList ++ joinWith " | ".toList rowCells ++ " |".toList))
  joinWith ['\n'] (headerLines ++ dataLines)

/-- The `TableStructure` built at lines 499-506. -/
def buildHtmlTable (rows : List (List HCell)) : TableStructure :=
  let headers := htmlTableHeaders rows
  let cells := htmlTableCells rows
  { rows := rows.length,
    cols :=
      if headers.length ≠ 0 then headers.length
      else if rows.length ≠ 0 then cells.length / rows.length else 0,
    headers := headers,
    cells := cells,
    markdown := htmlTableMarkdown rows,
    hasHeader := !headers.isEmpty }

structure HtmlState where
  blocks : List ContentBlock
  outline : List DocumentOutlineItem
  position : Nat
deriving Repr, DecidableEq

/-- Numeric value of an ASCII digit character (`int(tag_name[1])`). -/
def charDigitVal (c : Char) : Nat := c.toNat - 48

/-- One iteration of the element loop at lines 396-509. -/
def processHtmlElement (st : HtmlState) (e : HElem) : HtmlState :=
  if "h".toList.isPrefixOf e.tag.toList && e.tag.length == 2 then
    let level := charDigitVal (e.tag.toList.getD 1 '0')
    let text := pyStrip e.textContent
    if text ≠ [] then
      { st with
        blocks := st.blocks ++
          [{ type := "heading", content := text, position := st.position,
             headingLevel := some level, pageNumber := some 1 }],
        outline := st.outline ++
          [{ title := text, level := level, position := st.position,
             pageNumber := some 1 }],
        position := st.position + 1 }
    else st
  else if e.tag == "p" then
    let text := pyStrip e.textContent
    if text ≠ [] then
      { st with
        blocks := st.blocks ++
          [{ type := "paragraph", content := text, position := st.position,
             pageNumber := some 1 }],
        position := st.position + 1 }
    else st
  else if e.tag == "pre" || e.tag == "code" then
    let text := pyStrip e.textContent
    if text ≠ [] then
      { st with
        blocks := st.blocks ++
          [{ type := "code", content := text, position := st.position,
             codeLanguage := e.classes.head?, pageNumber := some 1 }],
        position := st.position + 1 }
    else st
  else if e.tag == "ul" || e.tag == "ol" then
    let items := e.listItems.map pyStrip
    if items ≠ [] then
      { st with
        blocks := st.blocks ++
          [{ type := "list", content := joinWith ['\n'] items,
             position := st.position,
             listType := some (if e.tag == "ol" then "ordered" else "unordered"),
             listItems := some items, pageNumber := some 1 }],
        position := st.position + 1 }
    else st
  else if e.tag == "table" then
    if e.tableRows ≠ [] then
      let t := buildHtmlTable e.tableRows
      { st with
        blocks := st.blocks ++
          [{ type := "table", content := t.markdown, position := st.position,
             table := some t, pageNumber := some 1 }],
        position := st.position + 1 }
    else st
  else st

/-- What BeautifulSoup delivers for a successfully parsed document: the
matched element stream, `soup.get_text(separator='\n')`, and the `title`
element's `get_text()` if present. -/
structure SoupDoc where
  elements : List HElem
  docText : Str := []
  title : Option Str := none
deriving Repr, DecidableEq

/-- `parse_html_content` (lines 375-541).  `soup = none` models the
`ImportError` fallback (BeautifulSoup missing, lines 514-521). -/
def parse_html_content (soup : Option SoupDoc) (content : Str)
    (filename : Str) (now : Nat) : ParsedDocument :=
  match soup with
  | some sd =>
    let final := sd.elements.foldl processHtmlElement ⟨[], [], 0⟩
    let warnings : List ParsingWarning := []
    { documentId := generate_document_id (utf8Encode content) filename now,
      metadata :=
        { filename := filename, format := "html",
          fileSize := (utf8Encode content).length, pageCount := 1,
          title := sd.title.map pyStrip, parser := "native-html" },
      blocks := final.blocks,
      fullText := pyStrip sd.docText,
      outline := final.outline,
      warnings := warnings,
      success := warnings.isEmpty ||
        warnings.all (fun w => w.severity != "error") }
  | none =>
    let warnings : List ParsingWarning :=
      [{ code := "BEAUTIFULSOUP_MISSING",
         message := ("BeautifulSoup not installed. " ++
           "Install with: pip install beautifulsoup4").toList,
         severity := "error" }]
    { documentId := generate_document_id (utf8Encode content) filename now,
      metadata :=
        { filename := filename, format := "html",
          fileSize := (utf8Encode content).length, pageCount := 1,
          title := none, parser := "native-html" },
      blocks := [],
      fullText := content,
      outline := [],
      warnings := warnings,
      success := warnings.isEmpty ||
        warnings.all (fun w => w.severity != "error") }

-- ============================================
-- Delegated-binary (docling) adapter (`parse_with_docling`, lines 544-758)
-- ============================================

/-- One text-bearing element from the docling backend: `item.text`,
`item.label` (default `'paragraph'`), `item.page_no` (default 1). -/
structure DoclingText where
  text : Str
  label : Str := "paragraph".toList
  pageNo : Nat := 1
deriving Repr, DecidableEq

/-- The grid `table.export_to_dataframe()` yields: declared column headers
(after `str()`) and the data rows (values after `str()`), indexed by the
default 0-based range index that `iterrows()` enumerates. -/
structure DataFrame where
  columns : List Str
  rows : List (List Str)
deriving Repr, DecidableEq

/-- One tabular object from the backend: either a convertible grid with a
page number, a missing `export_to_dataframe` attribute (`table_data is
None`, silently skipped), or a conversion that raises (lines 713-718). -/
inductive DoclingTable where
  | ok (df : DataFrame) (pageNo : Nat)
  | noExport
  | fails (msg : Str)
deriving Repr, DecidableEq

structure DoclingState where
  blocks : List ContentBlock
  outline : List DocumentOutlineItem
  warnings : List ParsingWarning
  position : Nat
deriving Repr, DecidableEq

/-- Heading level resolution at lines 585-591. -/
def doclingHeadingLevel (label : Str) : Nat :=
  let base := if strContainsSub "title".toList label then 1 else 2
  if strContainsSub "h1".toList label then 1
  else if strContainsSub "h2".toList label then 2
  else if strContainsSub "h3".toList label then 3
  else if strContainsSub "h4".toList label then 4
  else if strContainsSub "h5".toList label then 5
  else if strContainsSub "h6".toList label then 6
  else base

/-- One iteration of the `for item in doc.texts` loop (lines 574-658). -/
def processDoclingText (st : DoclingState) (item : DoclingText) : DoclingState :=
  let text := pyStrip item.text
  if text = [] then st
  else
    let label := strToLower item.label
    let pageNum := item.pageNo
    if strContainsSub "heading".toList label ||
       strContainsSub "title".toList label then
      let level := doclingHeadingLevel label
      { st with
        blocks := st.blocks ++
          [{ type := "heading", content := text, position := st.position,
             headingLevel := some level, pageNumber := some pageNum }],
        outline := st.outline ++
          [{ title := text, level := level, position := st.position,
             pageNumber := some pageNum }],
        position := st.position + 1 }
    else if strContainsSub "list".toList label then
      { st with
        blocks := st.blocks ++
          [{ type := "list", content := text, position := st.position,
             listType := some "unordered", listItems := some [text],
             pageNumber := some pageNum }],
        position := st.position + 1 }
    else if strContainsSub "code".toList label then
      { st with
        blocks := st.blocks ++
          [{ type := "code", content := text, position := st.position,
             pageNumber := some pageNum }],
        position := st.position + 1 }
    else if strContainsSub "caption".toList label then
      { st with
        blocks := st.blocks ++
          [{ type := "caption", content := text, position := st.position,
             pageNumber := some pageNum }],
        position := st.position + 1 }
    else if strContainsSub "footer".toList label then
      { st with
        blocks := st.blocks ++
          [{ type := "footer", content := text, position := st.position,
             pageNumber := some pageNum }],
        position := st.position + 1 }
    else if strContainsSub "header".toList label then
      { st with
        blocks := st.blocks ++
          [{ type := "header", content := text, position := st.position,
             pageNumber := some pageNum }],
        position := st.position + 1 }
    else
      { st with
        blocks := st.blocks ++
          [{ type := "paragraph", content := text, position := st.position,
             pageNumber := some pageNum }],
        position := st.position + 1 }

/-- Cells built at lines 671-688: a synthesized header row 0 from the
declared column headers, then data rows at `int(row_idx) + 1`. -/
def doclingTableCells (df : DataFrame) : List TableCell :=
  df.columns.enum.map (fun ih =>
    { content := ih.2, row := 0, col := ih.1, isHeader := true }) ++
  df.rows.enum.flatMap (fun ir =>
    ir.2.enum.map (fun jv =>
      { content := jv.2, row := ir.1 + 1, col := jv.1, isHeader := false }))

/-- The markdown regeneration at lines 690-695. -/
def doclingTableMarkdown (df : DataFrame) : Str :=
  joinWith ['\n']
    (("| ".toList ++ joinWith " | ".toList df.columns ++ " |".toList) ::
     ("| ".toList ++
        joinWith " | ".toList (List.replicate df.columns.length "---".toList) ++
        " |".toList) ::
     df.rows.map (fun r => "| ".toList ++ joinWith " | ".toList r ++ " |".toList))

/-- The `TableStructure` built at lines 701-708. -/
def buildDoclingTable (df : DataFrame) : TableStructure :=
  { rows := df.rows.length + 1,
    cols := df.columns.length,
    headers := df.columns,
    cells := doclingTableCells df,
    markdown := doclingTableMarkdown df,
    hasHeader := true }

/-- One iteration of the `for table_idx, table in enumerate(doc.tables)`
loop (lines 662-718). -/
def processDoclingTable (idx : Nat) (st : DoclingState) :
    DoclingTable → DoclingState
  | .ok df pageNo =>
    let t := buildDoclingTable df
    { st with
      blocks := st.blocks ++
        [{ type := "table", content := t.markdown, position := st.position,
           table := some t, pageNumber := some pageNo }],
      position := st.position + 1 }
  | .noExport => st
  | .fails msg =>
    { st with
      warnings := st.warnings ++
        [{ code := "TABLE_EXTRACTION_FAILED",
           message := "Failed to extract table ".toList ++
             Nat.toDigits 10 idx ++ ": ".toList ++ msg,
           severity := "warning" }] }

def processDoclingTables (idx : Nat) (st : DoclingState) :
    List DoclingTable → DoclingState
  | [] => st
  | t :: rest => processDoclingTables (idx + 1) (processDoclingTable idx st t) rest

/-- `Path(filename).suffix` (empty unless the basename has an interior
dot), as used at lines 172 and 558. -/
def pathSuffix (filename : Str) : Str :=
  let base := ((splitOnChar '/' filename).reverse).headD []
  let rev := base.reverse
  match rev.findIdx? (fun c => c == '.') with
  | none => []
  | some j =>
    if 1 ≤ j ∧ j + 1 < base.length then (rev.take (j + 1)).reverse else []

/-- The `format_map.get(file_ext, 'pdf')` lookup at lines 724-730. -/
def doclingDetectedFormat (fileExt : Str) : String :=
  if fileExt = ".pdf".toList then "pdf"
  else if fileExt = ".docx".toList then "docx"
  else if fileExt = ".pptx".toList then "pptx"
  else if fileExt = ".xlsx".toList then "xlsx"
  else "pdf"

/-- `parse_with_docling` (lines 544-758), modelled from the point where the
backend call has succeeded: the backend delivered `texts`, `tables`, a page
count, an optional title and an optional markdown export.  `success` is
unconditionally `True` (line 757). -/
def parse_with_docling (texts : List DoclingText) (tables : List DoclingTable)
    (extractTables : Bool) (pageCount : Nat) (title : Option Str)
    (exportMd : Option Str) (fileContent : List Nat) (filename : Str)
    (now : Nat) : ParsedDocument :=
  let afterTexts := texts.foldl processDoclingText ⟨[], [], [], 0⟩
  let final :=
    if extractTables then processDoclingTables 0 afterTexts tables
    else afterTexts
  { documentId := generate_document_id fileContent filename now,
    metadata :=
      { filename := filename,
        format := doclingDetectedFormat (strToLower (pathSuffix filename)),
        fileSize := fileContent.length, pageCount := pageCount,
        title := title, parser := "docling" },
    blocks := final.blocks,
    fullText := exportMd.getD (joinWith ['\n'] (final.blocks.map (·.content))),
    outline := final.outline,
    warnings := final.warnings,
    success := true }

-- ============================================
-- Dispatch layer (`parse` endpoint, lines 820-888) and decoding
-- ============================================

def replChar : Char := Char.ofNat 0xFFFD

def utf8ContByte (b : Nat) : Bool := decide (0x80 ≤ b ∧ b < 0xC0)

/-- Python `bytes.decode('utf-8', errors='replace')`: a total decoder that
substitutes U+FFFD for malformed sequences instead of raising.  (Python's
exact replacement granularity for multi-byte garbage is immaterial here;
what matters is totality.) -/
def utf8DecodeReplaceAux : Nat → List Nat → Str
  | _, [] => []
  | 0, rest => rest.map (fun _ => replChar)
  | fuel + 1, b :: rest =>
    if b < 0x80 then Char.ofNat b :: utf8DecodeReplaceAux fuel rest
    else if 0xC2 ≤ b ∧ b ≤ 0xDF then
      match rest with
      | [] => [replChar]
      | b2 :: rest2 =>
        if utf8ContByte b2 then
          Char.ofNat ((b - 0xC0) * 64 + (b2 - 0x80)) ::
            utf8DecodeReplaceAux fuel rest2
        else replChar :: utf8DecodeReplaceAux fuel rest
    else if 0xE0 ≤ b ∧ b ≤ 0xEF then
      match rest with
      | [] => [replChar]
      | [_] => [replChar, replChar]
      | b2 :: b3 :: rest3 =>
        if utf8ContByte b2 && utf8ContByte b3 then
          let n := (b - 0xE0) * 4096 + (b2 - 0x80) * 64 + (b3 - 0x80)
          if 0x800 ≤ n ∧ ¬(0xD800 ≤ n ∧ n < 0xE000) then
            Char.ofNat n :: utf8DecodeReplaceAux fuel rest3
          else replChar :: utf8DecodeReplaceAux fuel rest
        else replChar :: utf8DecodeReplaceAux fuel rest
    else if 0xF0 ≤ b ∧ b ≤ 0xF4 then
      match rest with
      | [] => [replChar]
      | [_] => [replChar, replChar]
      | [_, _] => [replChar, replChar, replChar]
      | b2 :: b3 :: b4 :: rest4 =>
        if utf8ContByte b2 && utf8ContByte b3 && utf8ContByte b4 then
          let n := (b - 0xF0) * 262144 + (b2 - 0x80) * 4096 +
                   (b3 - 0x80) * 64 + (b4 - 0x80)
          if 0x10000 ≤ n ∧ n ≤ 0x10FFFF then
            Char.ofNat n :: utf8DecodeReplaceAux fuel rest4
          else replChar :: utf8DecodeReplaceAux fuel rest
        else replChar :: utf8DecodeReplaceAux fuel rest
    else replChar :: utf8DecodeReplaceAux fuel rest

def utf8DecodeReplace (bs : List Nat) : Str :=
  utf8DecodeReplaceAux bs.length bs

/-- `get_format_from_filename` (lines 159-173). -/
def get_format_from_filename (filename : Str) : Option String :=
  let ext := strToLower (pathSuffix filename)
  if ext = ".pdf".toList then some "pdf"
  else if ext = ".docx".toList then some "docx"
  else if ext = ".pptx".toList then some "pptx"
  else if ext = ".xlsx".toList then some "xlsx"
  else if ext = ".html".toList then some "html"
  else if ext = ".htm".toList then some "html"
  else if ext = ".md".toList then some "md"
  else if ext = ".markdown".toList then some "md"
  else if ext = ".txt".toList then some "txt"
  else none

def MAX_FILE_SIZE : Nat := 150 * 1024 * 1024

inductive DispatchError where
  | badRequest (msg : String)
  | payloadTooLarge
  | serviceUnavailable (msg : String)
deriving Repr, DecidableEq

/-- The `/parse` endpoint body after base64 decoding (lines 836-870): size
check, format detection, routing.  The BeautifulSoup capability is a
function from decoded content to soup data (`none` = ImportError), and the
docling backend is an abstract total conversion (`none` = unavailable). -/
def parse_endpoint (fileContent : List Nat) (filename : Str)
    (soupFor : Option (Str → SoupDoc))
    (doclingBackend : Option (List Nat → Str → ParsedDocument))
    (now : Nat) : Except DispatchError ParsedDocument :=
  if MAX_FILE_SIZE < fileContent.length then .error .payloadTooLarge
  else
    match get_format_from_filename filename with
    | none => .error (.badRequest "Unsupported file format")
    | some fmt =>
      if fmt = "md" ∨ fmt = "markdown" then
        .ok (parse_markdown_content (utf8DecodeReplace fileContent) filename now)
      else if fmt = "txt" then
        .ok (parse_txt_content (utf8DecodeReplace fileContent) filename now)
      else if fmt = "html" then
        let content := utf8DecodeReplace fileContent
        .ok (parse_html_content (soupFor.map (fun f => f content)) content
              filename now)
      else
        match doclingBackend with
        | some f => .ok (f fileContent filename)
        | none => .error (.serviceUnavailable "Docling not available")

-- ============================================
-- Derived definitions used by the theorem statements
-- ============================================

/-- The effect of the heading branch (lines 197-230): flush the pending
paragraph, then emit one `heading` block and outline item at the next
position, with level `min(count of leading '#', 6)`. -/
def mdHeadingStep (st : MdState) (line : Str) : MdState :=
  let st := flushParagraph st
  let level := min (countLeadingHashes line) 6
  let headingText := pyStrip (line.dropWhile (fun c => c == '#'))
  { st with
    blocks := st.blocks ++
      [{ type := "heading", content := headingText,
         position := st.position, headingLevel := some level,
         pageNumber := some 1 }],
    outline := st.outline ++
      [{ title := headingText, level := level,
         position := st.position, pageNumber := some 1 }],
    position := st.position + 1 }

/-- The effect of the fenced-code branch (lines 233-256): flush the pending
paragraph, then emit one `code` block at the next position whose body is
empty and whose language hint is the fence line's trailing text, stripped,
or absent when that is empty. -/
def mdCodeBlockStep (st : MdState) (line : Str) : MdState :=
  let st := flushParagraph st
  let lang := pyStrip (line.drop 3)
  { st with
    blocks := st.blocks ++
      [{ type := "code", content := [],
         position := st.position,
         codeLanguage := if lang = [] then none else some lang,
         pageNumber := some 1 }],
    position := st.position + 1 }

/-- The effect of the list branch (lines 259-284): flush the pending
paragraph, then emit one singleton `list` block at the next position.  The
item text strips ALL leading characters from `'-*+0123456789. '`, so
digits or marker characters that begin the item's own text are removed. -/
def mdListBlockStep (st : MdState) (line : Str) : MdState :=
  let st := flushParagraph st
  { st with
    blocks := st.blocks ++
      [{ type := "list", content := listItemText line,
         position := st.position, listType := some (listTypeOf line),
         listItems := some [listItemText line], pageNumber := some 1 }],
    position := st.position + 1 }

/-- The table invariant of the spec's data model: `(row, col)` pairs are
unique, and when `hasHeader` is set, every row-0 cell is a header cell and
the row-0 contents, in column order (their `col` fields being exactly
`0..headers.length-1` in order), equal `headers`. -/
def TableWf (t : TableStructure) : Prop :=
  (∀ c1 ∈ t.cells, ∀ c2 ∈ t.cells, c1.row = c2.row → c1.col = c2.col → c1 = c2) ∧
  (t.hasHeader = true →
    (∀ c ∈ t.cells, c.row = 0 → c.isHeader = true) ∧
    (t.cells.filter (fun c => c.row == 0)).map (·.content) = t.headers ∧
    (t.cells.filter (fun c => c.row == 0)).map (·.col) =
      List.range t.headers.length)

def isFailsTable : DoclingTable → Bool
  | .fails _ => true
  | _ => false

/-- The raw HTML input of the table-reconstruction example. -/
def c2Input : Str :=
  ("<table><tr><th>A</th><th>B</th></tr>" ++
   "<tr><td>1</td><td>2</td></tr></table>").toList

/-- The `tr` rows BeautifulSoup delivers for `c2Input`: row 0 has two `th`
cells with texts "A" and "B", row 1 has two `td` cells with texts "1" and
"2". -/
def c2TableRows : List (List HCell) :=
  [[{ isTh := true, text := "A".toList }, { isTh := true, text := "B".toList }],
   [{ isTh := false, text := "1".toList }, { isTh := false, text := "2".toList }]]

/-- The soup data for `c2Input`: `find_all` matches exactly the one `table`
element (`tr`/`th`/`td` are not in the query set), and the document text is
the concatenation of all text nodes separated by newlines. -/
def c2Soup : SoupDoc :=
  { elements :=
      [{ tag := "table", textContent := "AB12".toList,
         tableRows := c2TableRows }],
    docText := "A\nB\n1\n2".toList,
    title := none }

-- ============================================
-- Helper lemmas
-- ============================================

theorem natToBytesBE_length (n v : Nat) : (natToBytesBE n v).length = n := by
  induction n generalizing v with
  | zero => rfl
  | succ k ih => simp [natToBytesBE, ih]

theorem sha256_length (m : List Nat) : (sha256 m).length = 32 := by
  simp [sha256, natToBytesBE_length]

theorem bytesToHex_length (bs : List Nat) :
    (bytesToHex bs).length = 2 * bs.length := by
  induction bs with
  | nil => rfl
  | cons b t ih => simp [bytesToHex, ih]; omega

theorem hexDigitChar_mem (n : Nat) :
    hexDigitChar n ∈ "0123456789abcdef".toList := by
  unfold hexDigitChar
  by_cases h : n < 16
  · interval_cases n <;> decide
  · have h16 : ("0123456789abcdef".toList).length ≤ n := by
      have hl : ("0123456789abcdef".toList).length = 16 := by decide
      omega
    rw [List.getD_eq_default _ _ h16]
    decide

theorem mem_bytesToHex {c : Char} {bs : List Nat} (h : c ∈ bytesToHex bs) :
    ∃ n, c = hexDigitChar n := by
  induction bs with
  | nil => simp [bytesToHex] at h
  | cons b t ih =>
    simp only [bytesToHex, List.mem_cons] at h
    rcases h with h | h | h
    exacts [⟨b / 16, h⟩, ⟨b % 16, h⟩, ih h]

theorem txt_fold_spec (paras : List Str) :
    ∀ (blocks0 : List ContentBlock) (pos0 : Nat),
      paras.foldl txtStep (blocks0, pos0) =
        (blocks0 ++
          (List.enumFrom pos0
            ((paras.map pyStrip).filter (fun s => !s.isEmpty))).map
            (fun it =>
              { type := "paragraph", content := it.2, position := it.1,
                pageNumber := some 1 : ContentBlock }),
         pos0 + ((paras.map pyStrip).filter (fun s => !s.isEmpty)).length) := by
  induction paras with
  | nil => simp
  | cons p ps ih =>
    intro blocks0 pos0
    by_cases h : pyStrip p = []
    · simp [txtStep, h, ih]
    · simp [txtStep, h, ih, List.enumFrom_cons, List.isEmpty_iff]
      omega

-- ============================================
-- Claim theorems
-- ============================================

/-- C10: whenever the HTML-parsing capability is importable (`soup = some
sd`), `parse_html_content` produces no warnings and `success = true` for
every input; the sole warning-producing, `success = false` path is the
missing-capability fallback, which emits exactly the one error-severity
`BEAUTIFULSOUP_MISSING` warning. -/
theorem c10_html_warnings_only_when_capability_missing :
    (∀ (sd : SoupDoc) (content filename : Str) (now : Nat),
      (parse_html_content (some sd) content filename now).warnings = [] ∧
      (parse_html_content (some sd) content filename now).success = true) ∧
    (∀ (content filename : Str) (now : Nat),
      (parse_html_content none content filename now).warnings.map
        (fun w => (w.code, w.severity)) =
        [("BEAUTIFULSOUP_MISSING", "error")] ∧
      (parse_html_content none content filename now).success = false) :=
  ⟨fun _ _ _ _ => ⟨rfl, rfl⟩, fun _ _ _ => ⟨rfl, rfl⟩⟩

/-- C2: on the input
`<table><tr><th>A</th><th>B</th></tr><tr><td>1</td><td>2</td></tr></table>`
the HTML normalizer emits exactly one table block whose `TableStructure`
has `headers = ["A","B"]`, `hasHeader = true`, exactly two row-0 cells all
with `isHeader = true`, exactly two row-1 cells all with
`isHeader = false`, and the regenerated markdown
`"| A | B |\n| --- | --- |\n| 1 | 2 |"`. -/
theorem c2_html_table_reconstruction :
    ∃ t : TableStructure,
      (parse_html_content (some c2Soup) c2Input "t.html".toList 0).blocks.map
        (fun b => (b.type, b.table)) = [("table", some t)] ∧
      t.headers = ["A".toList, "B".toList] ∧
      t.hasHeader = true ∧
      (t.cells.filter (fun c => c.row == 0)).length = 2 ∧
      (∀ c ∈ t.cells.filter (fun c => c.row == 0), c.isHeader = true) ∧
      (t.cells.filter (fun c => c.row == 1)).length = 2 ∧
      (∀ c ∈ t.cells.filter (fun c => c.row == 1), c.isHeader = false) ∧
      t.markdown =
        ("| A | B |" ++ "\n" ++ "| --- | --- |" ++ "\n" ++ "| 1 | 2 |").toList := by
  refine ⟨buildHtmlTable c2TableRows, ?_, ?_, ?_, ?_, ?_, ?_, ?_, ?_⟩ <;> decide

/-- C8: the generated document id is `"doc_"`, the unix-seconds timestamp,
an underscore, and the first 12 (hexadecimal) characters of the SHA-256 of
the content bytes followed by the UTF-8 filename bytes.  The hash segment
is a pure function of content and filename, so two parses of identical
input in the same second yield the same id, and parses in different
seconds yield ids differing only in the timestamp segment. -/
theorem c8_document_id_format (t t' : Nat) (content : List Nat)
    (filename : Str) :
    ∃ hx : Str,
      hx = (bytesToHex (sha256 (content ++ utf8Encode filename))).take 12 ∧
      hx.length = 12 ∧
      (∀ c ∈ hx, c ∈ "0123456789abcdef".toList) ∧
      generate_document_id content filename t =
        "doc_".toList ++ Nat.toDigits 10 t ++ "_".toList ++ hx ∧
      generate_document_id content filename t' =
        "doc_".toList ++ Nat.toDigits 10 t' ++ "_".toList ++ hx := by
  refine ⟨_, rfl, ?_, ?_, rfl, rfl⟩
  · rw [List.length_take, bytesToHex_length, sha256_length]
    decide
  · intro c hc
    obtain ⟨n, rfl⟩ := mem_bytesToHex (List.mem_of_mem_take hc)
    exact hexDigitChar_mem n

/-- C7: the plain-text normalizer emits exactly one paragraph block per
segment of the double-newline split that is non-empty after trimming, in
segment order, at consecutive positions `0..n-1`, all with `pageNumber =
1`; outline and warnings are empty and `success = true`. -/
theorem c7_txt_paragraph_blocks (content filename : Str) (now : Nat) :
    (parse_txt_content content filename now).blocks =
      (((pySplitOn "\n\n".toList content).map pyStrip).filter
          (fun s => !s.isEmpty)).enum.map
        (fun it =>
          { type := "paragraph", content := it.2, position := it.1,
            pageNumber := some 1 : ContentBlock }) ∧
    (parse_txt_content content filename now).blocks.length =
      (((pySplitOn "\n\n".toList content).map pyStrip).filter
          (fun s => !s.isEmpty)).length ∧
    (parse_txt_content content filename now).blocks.map (·.position) =
      List.range
        (((pySplitOn "\n\n".toList content).map pyStrip).filter
          (fun s => !s.isEmpty)).length ∧
    (parse_txt_content content filename now).outline = [] ∧
    (parse_txt_content content filename now).warnings = [] ∧
    (parse_txt_content content filename now).success = true := by
  have hfold := txt_fold_spec (pySplitOn "\n\n".toList content) [] 0
  refine ⟨?_, ?_, ?_, rfl, rfl, rfl⟩
  · show ((pySplitOn "\n\n".toList content).foldl txtStep ([], 0)).1 = _
    rw [hfold]
    simp [List.enum]
  · show ((pySplitOn "\n\n".toList content).foldl txtStep ([], 0)).1.length = _
    rw [hfold]
    simp
  · show (((pySplitOn "\n\n".toList content).foldl txtStep ([], 0)).1.map
      (·.position)) = _
    rw [hfold]
    simp only [List.nil_append, List.map_map]
    have h1 : ((fun (x : ContentBlock) => x.position) ∘
        (fun (it : Nat × Str) =>
          ({ type := "paragraph", content := it.2, position := it.1,
             pageNumber := some 1 } : ContentBlock))) = Prod.fst := rfl
    rw [h1]
    exact List.enum_map_fst
      (((pySplitOn "\n\n".toList content).map pyStrip).filter
        (fun s => !s.isEmpty))


-- Markdown state-machine lemmas

theorem pyStrip_cons_head {c : Char} {t : Str} (hc : pyWsChar c = false) :
    ∃ r, pyStrip (c :: t) = c :: r := by
  have h1 : pyLStripP pyWsChar (c :: t) = c :: t := by
    simp [pyLStripP, List.dropWhile_cons, hc]
  have h2 : pyStrip (c :: t) <+: (c :: t) := by
    rw [pyStrip, h1, pyRStripP]
    have h3 := @List.dropWhile_suffix Char ((c :: t).reverse) pyWsChar
    have := List.reverse_prefix.2 h3
    simpa using this
  have h4 : pyStrip (c :: t) ≠ [] := by
    rw [pyStrip, h1, pyRStripP]
    intro hemp
    rw [List.reverse_eq_nil_iff, List.dropWhile_eq_nil_iff] at hemp
    have hw := hemp c (by simp)
    rw [hw] at hc
    exact Bool.noConfusion hc
  obtain ⟨r, hr⟩ := h2
  cases hps : pyStrip (c :: t) with
  | nil => exact absurd hps h4
  | cons d s =>
    rw [hps, List.cons_append] at hr
    injection hr with hd _
    subst hd
    exact ⟨s, rfl⟩

theorem isListLine_false_of_head {c : Char} {t : Str}
    (hws : pyWsChar c = false) (hd : c.isDigit = false)
    (h1 : ('-' == c) = false) (h2 : ('*' == c) = false)
    (h3 : ('+' == c) = false) :
    isListLine (c :: t) = false := by
  obtain ⟨r, hr⟩ := pyStrip_cons_head hws
  unfold isListLine
  rw [hr]
  simp [List.isPrefixOf, h1, h2, h3, hd]

theorem isListLine_hash_false {line : Str}
    (h : "#".toList.isPrefixOf line = true) : isListLine line = false := by
  obtain ⟨t, ht⟩ := List.isPrefixOf_iff_prefix.1 h
  rw [← ht]
  exact isListLine_false_of_head (by decide) (by decide) (by decide)
    (by decide) (by decide)

theorem isListLine_fence_false {line : Str}
    (h : "```".toList.isPrefixOf line = true) : isListLine line = false := by
  obtain ⟨t, ht⟩ := List.isPrefixOf_iff_prefix.1 h
  rw [← ht]
  exact isListLine_false_of_head (by decide) (by decide) (by decide)
    (by decide) (by decide)

theorem hash_of_isListLine {line : Str} (h : isListLine line = true) :
    "#".toList.isPrefixOf line = false := by
  cases hph : "#".toList.isPrefixOf line with
  | false => rfl
  | true => rw [isListLine_hash_false hph] at h; exact Bool.noConfusion h

theorem fence_of_isListLine {line : Str} (h : isListLine line = true) :
    "```".toList.isPrefixOf line = false := by
  cases hph : "```".toList.isPrefixOf line with
  | false => rfl
  | true => rw [isListLine_fence_false hph] at h; exact Bool.noConfusion h

theorem fence_hash_false {line : Str}
    (h : "```".toList.isPrefixOf line = true) :
    "#".toList.isPrefixOf line = false := by
  obtain ⟨t, ht⟩ := List.isPrefixOf_iff_prefix.1 h
  rw [← ht]
  simp [List.isPrefixOf]

-- Branch equations for `processMdLine`

theorem processMdLine_heading {st : MdState} {line : Str}
    (h : "#".toList.isPrefixOf line = true) :
    processMdLine st line = mdHeadingStep st line := by
  have h' : ['#'] <+: line := by simpa using List.isPrefixOf_iff_prefix.1 h
  simp [processMdLine, mdHeadingStep, h']

theorem processMdLine_code {st : MdState} {line : Str}
    (h : "```".toList.isPrefixOf line = true) :
    processMdLine st line = mdCodeBlockStep st line := by
  have h' : ['`', '`', '`'] <+: line := by
    simpa using List.isPrefixOf_iff_prefix.1 h
  have hh : ¬(['#'] <+: line) := by
    intro hcon
    have hcc : "#".toList.isPrefixOf line = true :=
      List.isPrefixOf_iff_prefix.2 (by simpa using hcon)
    rw [fence_hash_false h] at hcc
    exact Bool.noConfusion hcc
  simp [processMdLine, mdCodeBlockStep, h', hh]

theorem processMdLine_list {st : MdState} {line : Str}
    (h : isListLine line = true) :
    processMdLine st line = mdListBlockStep st line := by
  have hh : ¬(['#'] <+: line) := by
    intro hcon
    have : "#".toList.isPrefixOf line = true :=
      List.isPrefixOf_iff_prefix.2 (by simpa using hcon)
    rw [hash_of_isListLine h] at this
    exact Bool.noConfusion this
  have hf : ¬(['`', '`', '`'] <+: line) := by
    intro hcon
    have : "```".toList.isPrefixOf line = true :=
      List.isPrefixOf_iff_prefix.2 (by simpa using hcon)
    rw [fence_of_isListLine h] at this
    exact Bool.noConfusion this
  simp [processMdLine, mdListBlockStep, hh, hf, h]

theorem processMdLine_para {st : MdState} {line : Str}
    (hA : "#".toList.isPrefixOf line = false)
    (hB : "```".toList.isPrefixOf line = false)
    (hC : isListLine line = false) (hD : pyStrip line ≠ []) :
    processMdLine st line =
      { st with currentParagraph := st.currentParagraph ++ [line] } := by
  have hh : ¬(['#'] <+: line) := by
    intro hcon
    have : "#".toList.isPrefixOf line = true :=
      List.isPrefixOf_iff_prefix.2 (by simpa using hcon)
    rw [hA] at this
    exact Bool.noConfusion this
  have hf : ¬(['`', '`', '`'] <+: line) := by
    intro hcon
    have : "```".toList.isPrefixOf line = true :=
      List.isPrefixOf_iff_prefix.2 (by simpa using hcon)
    rw [hB] at this
    exact Bool.noConfusion this
  simp [processMdLine, hh, hf, hC, hD]

theorem processMdLine_blank {st : MdState} {line : Str}
    (hA : "#".toList.isPrefixOf line = false)
    (hB : "```".toList.isPrefixOf line = false)
    (hC : isListLine line = false) (hD : pyStrip line = []) :
    processMdLine st line = flushParagraph st := by
  have hh : ¬(['#'] <+: line) := by
    intro hcon
    have : "#".toList.isPrefixOf line = true :=
      List.isPrefixOf_iff_prefix.2 (by simpa using hcon)
    rw [hA] at this
    exact Bool.noConfusion this
  have hf : ¬(['`', '`', '`'] <+: line) := by
    intro hcon
    have : "```".toList.isPrefixOf line = true :=
      List.isPrefixOf_iff_prefix.2 (by simpa using hcon)
    rw [hB] at this
    exact Bool.noConfusion this
  simp [processMdLine, hh, hf, hC, hD]

-- Flush characterization

theorem flushParagraph_eq_nil {st : MdState} (hcp : st.currentParagraph = []) :
    flushParagraph st = st := by
  rw [flushParagraph, hcp]

theorem flushParagraph_eq_emit {st : MdState} {hd : Str} {tl : List Str}
    (hcp : st.currentParagraph = hd :: tl)
    (hpt : pyStrip (joinWith ['\n'] (hd :: tl)) ≠ []) :
    flushParagraph st =
      { st with
        blocks := st.blocks ++
          [{ type := "paragraph",
             content := pyStrip (joinWith ['\n'] (hd :: tl)),
             position := st.position, pageNumber := some 1 }],
        position := st.position + 1,
        currentParagraph := [] } := by
  rw [flushParagraph, hcp]
  simp [hcp, hpt]

theorem flushParagraph_eq_drop {st : MdState} {hd : Str} {tl : List Str}
    (hcp : st.currentParagraph = hd :: tl)
    (hpt : pyStrip (joinWith ['\n'] (hd :: tl)) = []) :
    flushParagraph st = { st with currentParagraph := [] } := by
  rw [flushParagraph, hcp]
  simp [hcp, hpt]

theorem mem_flushParagraph_blocks {st : MdState} {b : ContentBlock}
    (h : b ∈ (flushParagraph st).blocks) :
    b ∈ st.blocks ∨ b.type = "paragraph" := by
  cases hcp : st.currentParagraph with
  | nil => rw [flushParagraph_eq_nil hcp] at h; exact Or.inl h
  | cons hd tl =>
    by_cases hpt : pyStrip (joinWith ['\n'] (hd :: tl)) = []
    · rw [flushParagraph_eq_drop hcp hpt] at h; exact Or.inl h
    · rw [flushParagraph_eq_emit hcp hpt] at h
      simp only [List.mem_append, List.mem_singleton] at h
      rcases h with h | h
      · exact Or.inl h
      · subst h; exact Or.inr rfl

theorem blocks_pos_append {blocks : List ContentBlock} {b : ContentBlock}
    (h : blocks.map (·.position) = List.range blocks.length)
    (hb : b.position = blocks.length) :
    (blocks ++ [b]).map (·.position) = List.range (blocks ++ [b]).length := by
  simp [h, hb, List.range_succ]

theorem flushParagraph_posOk {st : MdState}
    (h1 : st.position = st.blocks.length)
    (h2 : st.blocks.map (·.position) = List.range st.blocks.length) :
    (flushParagraph st).position = (flushParagraph st).blocks.length ∧
    (flushParagraph st).blocks.map (·.position) =
      List.range (flushParagraph st).blocks.length := by
  cases hcp : st.currentParagraph with
  | nil => rw [flushParagraph_eq_nil hcp]; exact ⟨h1, h2⟩
  | cons hd tl =>
    by_cases hpt : pyStrip (joinWith ['\n'] (hd :: tl)) = []
    · rw [flushParagraph_eq_drop hcp hpt]; exact ⟨h1, h2⟩
    · rw [flushParagraph_eq_emit hcp hpt]
      exact ⟨by simp [h1], blocks_pos_append h2 h1⟩

theorem step_state_posOk {st2 : MdState} (st1 : MdState) {b : ContentBlock}
    (hs : st2.blocks = st1.blocks ++ [b])
    (hp : st2.position = st1.position + 1)
    (h1 : st1.position = st1.blocks.length)
    (h2 : st1.blocks.map (·.position) = List.range st1.blocks.length)
    (hb : b.position = st1.position) :
    st2.position = st2.blocks.length ∧
    st2.blocks.map (·.position) = List.range st2.blocks.length := by
  constructor
  · rw [hp, hs]; simp [h1]
  · rw [hs]; exact blocks_pos_append h2 (hb.trans h1)

theorem processMdLine_posOk {st : MdState} {line : Str}
    (h1 : st.position = st.blocks.length)
    (h2 : st.blocks.map (·.position) = List.range st.blocks.length) :
    (processMdLine st line).position = (processMdLine st line).blocks.length ∧
    (processMdLine st line).blocks.map (·.position) =
      List.range (processMdLine st line).blocks.length := by
  obtain ⟨g1, g2⟩ := flushParagraph_posOk h1 h2
  by_cases hA : "#".toList.isPrefixOf line = true
  · rw [processMdLine_heading hA]
    exact step_state_posOk (flushParagraph st) rfl rfl g1 g2 rfl
  · by_cases hB : "```".toList.isPrefixOf line = true
    · rw [processMdLine_code hB]
      exact step_state_posOk (flushParagraph st) rfl rfl g1 g2 rfl
    · by_cases hC : isListLine line = true
      · rw [processMdLine_list hC]
        exact step_state_posOk (flushParagraph st) rfl rfl g1 g2 rfl
      · by_cases hD : pyStrip line = []
        · rw [processMdLine_blank (Bool.eq_false_iff.2 hA) (Bool.eq_false_iff.2 hB)
            (Bool.eq_false_iff.2 hC) hD]
          exact ⟨g1, g2⟩
        · rw [processMdLine_para (Bool.eq_false_iff.2 hA) (Bool.eq_false_iff.2 hB)
            (Bool.eq_false_iff.2 hC) hD]
          exact ⟨h1, h2⟩

theorem md_fold_posOk (lines : List Str) :
    ∀ st : MdState,
      st.position = st.blocks.length →
      st.blocks.map (·.position) = List.range st.blocks.length →
      (lines.foldl processMdLine st).position =
        (lines.foldl processMdLine st).blocks.length ∧
      (lines.foldl processMdLine st).blocks.map (·.position) =
        List.range (lines.foldl processMdLine st).blocks.length := by
  induction lines with
  | nil => intro st h1 h2; exact ⟨h1, h2⟩
  | cons l ls ih =>
    intro st h1 h2
    obtain ⟨g1, g2⟩ := @processMdLine_posOk st l h1 h2
    exact ih _ g1 g2

theorem mem_processMdLine_blocks {st : MdState} {line : Str} {b : ContentBlock}
    (h : b ∈ (processMdLine st line).blocks) :
    b ∈ st.blocks ∨ b.type = "paragraph" ∨
    (b.type = "heading" ∧ "#".toList.isPrefixOf line = true ∧
      b.headingLevel = some (min (countLeadingHashes line) 6)) ∨
    (b.type = "code" ∧ b.content = []) ∨
    b.type = "list" := by
  by_cases hA : "#".toList.isPrefixOf line = true
  · rw [processMdLine_heading hA] at h
    simp only [mdHeadingStep, List.mem_append, List.mem_singleton] at h
    rcases h with h | h
    · rcases mem_flushParagraph_blocks h with h | h
      · exact Or.inl h
      · exact Or.inr (Or.inl h)
    · subst h
      exact Or.inr (Or.inr (Or.inl ⟨rfl, hA, rfl⟩))
  · by_cases hB : "```".toList.isPrefixOf line = true
    · rw [processMdLine_code hB] at h
      simp only [mdCodeBlockStep, List.mem_append, List.mem_singleton] at h
      rcases h with h | h
      · rcases mem_flushParagraph_blocks h with h | h
        · exact Or.inl h
        · exact Or.inr (Or.inl h)
      · subst h
        exact Or.inr (Or.inr (Or.inr (Or.inl ⟨rfl, rfl⟩)))
    · by_cases hC : isListLine line = true
      · rw [processMdLine_list hC] at h
        simp only [mdListBlockStep, List.mem_append, List.mem_singleton] at h
        rcases h with h | h
        · rcases mem_flushParagraph_blocks h with h | h
          · exact Or.inl h
          · exact Or.inr (Or.inl h)
        · subst h
          exact Or.inr (Or.inr (Or.inr (Or.inr rfl)))
      · by_cases hD : pyStrip line = []
        · rw [processMdLine_blank (Bool.eq_false_iff.2 hA) (Bool.eq_false_iff.2 hB)
            (Bool.eq_false_iff.2 hC) hD] at h
          rcases mem_flushParagraph_blocks h with h | h
          · exact Or.inl h
          · exact Or.inr (Or.inl h)
        · rw [processMdLine_para (Bool.eq_false_iff.2 hA) (Bool.eq_false_iff.2 hB)
            (Bool.eq_false_iff.2 hC) hD] at h
          exact Or.inl h

theorem md_fold_blocks_inv (lines : List Str) :
    ∀ (st : MdState) (L : List Str),
      (∀ l ∈ lines, l ∈ L) →
      (∀ b ∈ st.blocks,
        (b.type = "heading" →
          ∃ line, line ∈ L ∧ "#".toList.isPrefixOf line = true ∧
            b.headingLevel = some (min (countLeadingHashes line) 6)) ∧
        (b.type = "code" → b.content = [])) →
      ∀ b ∈ (lines.foldl processMdLine st).blocks,
        (b.type = "heading" →
          ∃ line, line ∈ L ∧ "#".toList.isPrefixOf line = true ∧
            b.headingLevel = some (min (countLeadingHashes line) 6)) ∧
        (b.type = "code" → b.content = []) := by
  induction lines with
  | nil => intro st L _ hinv b hb; exact hinv b hb
  | cons l ls ih =>
    intro st L hsub hinv b hb
    refine ih (processMdLine st l) L
      (fun x hx => hsub x (List.mem_cons_of_mem _ hx)) ?_ b hb
    intro b' hb'
    rcases mem_processMdLine_blocks hb' with h | h | h | h | h
    · exact hinv b' h
    · refine ⟨fun ht => ?_, fun ht => ?_⟩ <;>
        (rw [h] at ht; exact absurd ht (by decide))
    · obtain ⟨ht, hp, hl⟩ := h
      refine ⟨fun _ => ⟨l, hsub l (List.mem_cons_self _ _), hp, hl⟩, fun hc => ?_⟩
      rw [ht] at hc; exact absurd hc (by decide)
    · obtain ⟨ht, hc⟩ := h
      refine ⟨fun hh => ?_, fun _ => hc⟩
      rw [ht] at hh; exact absurd hh (by decide)
    · refine ⟨fun hh => ?_, fun hc => ?_⟩
      · rw [h] at hh; exact absurd hh (by decide)
      · rw [h] at hc; exact absurd hc (by decide)

theorem countLeadingHashes_pos {line : Str}
    (h : "#".toList.isPrefixOf line = true) : 1 ≤ countLeadingHashes line := by
  obtain ⟨t, ht⟩ := List.isPrefixOf_iff_prefix.1 h
  rw [← ht]
  show 1 ≤ (List.takeWhile (fun c => c == '#') ('#' :: t)).length
  rw [List.takeWhile_cons]
  simp

/-- C1: for every Markdown input, the emitted block positions are exactly
`0..n-1` (the position sequence is `List.range n`), and every heading
block's `headingLevel` equals the count of its source line's leading `'#'`
characters capped at 6, hence always in `[1, 6]`. -/
theorem c1_md_positions_and_heading_levels (content filename : Str) (now : Nat) :
    (parse_markdown_content content filename now).blocks.map (·.position) =
      List.range (parse_markdown_content content filename now).blocks.length ∧
    ∀ b ∈ (parse_markdown_content content filename now).blocks,
      b.type = "heading" →
      ∃ line, line ∈ splitOnChar '\n' content ∧
        "#".toList.isPrefixOf line = true ∧
        b.headingLevel = some (min (countLeadingHashes line) 6) ∧
        1 ≤ min (countLeadingHashes line) 6 ∧
        min (countLeadingHashes line) 6 ≤ 6 := by
  have hfold := md_fold_posOk (splitOnChar '\n' content) mdInitState rfl rfl
  have hflush := flushParagraph_posOk hfold.1 hfold.2
  have hinv := md_fold_blocks_inv (splitOnChar '\n' content) mdInitState
    (splitOnChar '\n' content) (fun _ hx => hx)
    (fun b hb => absurd hb (by simp [mdInitState]))
  constructor
  · exact hflush.2
  · intro b hb hheading
    rcases mem_flushParagraph_blocks hb with hb' | hb'
    · obtain ⟨line, hmem, hpre, hlev⟩ := (hinv b hb').1 hheading
      refine ⟨line, hmem, hpre, hlev, ?_, Nat.min_le_right _ _⟩
      exact Nat.le_min.2 ⟨countLeadingHashes_pos hpre, by omega⟩
    · rw [hb'] at hheading; exact absurd hheading (by decide)

/-- C4: every line starting with three backticks flushes the pending
paragraph and emits exactly one `code` block at the next position, with
`codeLanguage` the fence line's trailing text (stripped; absent if empty)
and an empty body (`mdCodeBlockStep`); and no `code` block of any Markdown
parse ever carries content — lines between fences are never collected into
a code block's body. -/
theorem c4_md_fenced_code :
    (∀ (st : MdState) (line : Str), "```".toList.isPrefixOf line = true →
      processMdLine st line = mdCodeBlockStep st line) ∧
    (∀ (content filename : Str) (now : Nat),
      ∀ b ∈ (parse_markdown_content content filename now).blocks,
        b.type = "code" → b.content = []) := by
  constructor
  · intro st line h
    exact processMdLine_code h
  · intro content filename now b hb hc
    have hinv := md_fold_blocks_inv (splitOnChar '\n' content) mdInitState
      (splitOnChar '\n' content) (fun _ hx => hx)
      (fun b hb => absurd hb (by simp [mdInitState]))
    rcases mem_flushParagraph_blocks hb with hb' | hb'
    · exact (hinv b hb').2 hc
    · rw [hb'] at hc; exact absurd hc (by decide)

/-- C4 witness: a concrete fence line taken through the theorem. -/
theorem c4_md_fenced_code_witness :
    ("```".toList.isPrefixOf "```py".toList = true) ∧
    processMdLine mdInitState "```py".toList =
      mdCodeBlockStep mdInitState "```py".toList :=
  ⟨by decide, c4_md_fenced_code.1 mdInitState "```py".toList (by decide)⟩

/-- C3 counterexample: on the list line `"- 2 eggs"` the emitted singleton
list block's item text is `"eggs"`, not `"2 eggs"`: digits that begin the
item's own text are stripped by `lstrip('-*+0123456789. ')`, not
preserved as the claim states. -/
theorem c3_list_item_counterexample :
    ((parse_markdown_content "- 2 eggs".toList "recipe.md".toList 0).blocks.map
      (fun b => (b.type, b.content, b.listItems))) =
      [("list", "eggs".toList, some ["eggs".toList])] ∧
    ("eggs".toList : Str) ≠ "2 eggs".toList := by
  constructor
  · decide
  · decide

/-- C3 (amended): every line classified as a list item yields exactly one
singleton list block, ordered iff the trimmed line starts with a digit,
whose item text is the trimmed line with ALL leading characters from
`'-*+0123456789. '` removed and then trimmed — digits or marker characters
that begin the item's own text are stripped as well (`mdListBlockStep`). -/
theorem c3_list_item_amended (st : MdState) (line : Str)
    (h : isListLine line = true) :
    processMdLine st line = mdListBlockStep st line :=
  processMdLine_list h

/-- C3 witness: the concrete line `"- 2 eggs"` taken through the amended
theorem. -/
theorem c3_list_item_amended_witness :
    (isListLine "- 2 eggs".toList = true) ∧
    processMdLine mdInitState "- 2 eggs".toList =
      mdListBlockStep mdInitState "- 2 eggs".toList :=
  ⟨by decide, c3_list_item_amended mdInitState "- 2 eggs".toList (by decide)⟩

-- Table invariant lemmas (C5)

theorem mem_htmlTableCells {rows : List (List HCell)} {c : TableCell}
    (h : c ∈ htmlTableCells rows) :
    ∃ i j r cell, rows[i]? = some r ∧ r[j]? = some cell ∧
      c = { content := pyStrip cell.text, row := i, col := j,
            isHeader := cell.isTh || i == 0 } := by
  unfold htmlTableCells at h
  rw [List.mem_flatMap] at h
  obtain ⟨⟨i, r⟩, hir, hc⟩ := h
  rw [List.mem_map] at hc
  obtain ⟨⟨j, cell⟩, hjc, rfl⟩ := hc
  exact ⟨i, j, r, cell, List.mem_enum_iff_getElem?.1 hir,
    List.mem_enum_iff_getElem?.1 hjc, rfl⟩

theorem htmlTableCells_unique (rows : List (List HCell)) :
    ∀ c1 ∈ htmlTableCells rows, ∀ c2 ∈ htmlTableCells rows,
      c1.row = c2.row → c1.col = c2.col → c1 = c2 := by
  intro c1 h1 c2 h2 hrow hcol
  obtain ⟨i1, j1, r1, cell1, hr1, hc1, he1⟩ := mem_htmlTableCells h1
  obtain ⟨i2, j2, r2, cell2, hr2, hc2, he2⟩ := mem_htmlTableCells h2
  have hi : i1 = i2 := by rw [he1, he2] at hrow; exact hrow
  have hj : j1 = j2 := by rw [he1, he2] at hcol; exact hcol
  subst hi; subst hj
  rw [hr1] at hr2
  have hrr : r1 = r2 := Option.some.inj hr2
  subst hrr
  rw [hc1] at hc2
  have hcc : cell1 = cell2 := Option.some.inj hc2
  subst hcc
  rw [he1, he2]

theorem buildHtmlTable_wf (rows : List (List HCell)) :
    TableWf (buildHtmlTable rows) := by
  constructor
  · exact htmlTableCells_unique rows
  · intro hh
    cases rows with
    | nil =>
      exfalso
      simp [buildHtmlTable, htmlTableHeaders] at hh
    | cons r0 rest =>
      have hcells : htmlTableCells (r0 :: rest) =
          r0.enum.map (fun jc =>
            ({ content := pyStrip jc.2.text, row := 0, col := jc.1,
               isHeader := jc.2.isTh || 0 == 0 } : TableCell)) ++
          (List.enumFrom 1 rest).flatMap (fun ir =>
            ir.2.enum.map (fun jc =>
              ({ content := pyStrip jc.2.text, row := ir.1, col := jc.1,
                 isHeader := jc.2.isTh || ir.1 == 0 } : TableCell))) := by
        unfold htmlTableCells
        rw [List.enum_cons, List.flatMap_cons]
      have hfilter :
          ((buildHtmlTable (r0 :: rest)).cells.filter (fun c => c.row == 0)) =
            r0.enum.map (fun jc =>
              ({ content := pyStrip jc.2.text, row := 0, col := jc.1,
                 isHeader := jc.2.isTh || 0 == 0 } : TableCell)) := by
        show (htmlTableCells (r0 :: rest)).filter (fun c => c.row == 0) = _
        rw [hcells, List.filter_append]
        have hkeep : (r0.enum.map (fun jc =>
            ({ content := pyStrip jc.2.text, row := 0, col := jc.1,
               isHeader := jc.2.isTh || 0 == 0 } : TableCell))).filter
              (fun c => c.row == 0) =
            r0.enum.map (fun jc =>
              ({ content := pyStrip jc.2.text, row := 0, col := jc.1,
                 isHeader := jc.2.isTh || 0 == 0 } : TableCell)) := by
          rw [List.filter_eq_self]
          intro a ha
          rw [List.mem_map] at ha
          obtain ⟨jc, _, rfl⟩ := ha
          rfl
        have hdrop : ((List.enumFrom 1 rest).flatMap (fun ir =>
            ir.2.enum.map (fun jc =>
              ({ content := pyStrip jc.2.text, row := ir.1, col := jc.1,
                 isHeader := jc.2.isTh || ir.1 == 0 } : TableCell)))).filter
              (fun c => c.row == 0) = [] := by
          rw [List.filter_eq_nil_iff]
          intro a ha
          rw [List.mem_flatMap] at ha
          obtain ⟨⟨i, r⟩, hir, ha⟩ := ha
          rw [List.mem_map] at ha
          obtain ⟨⟨j, cell⟩, _, rfl⟩ := ha
          have h1 := (List.mem_enumFrom hir).1
          simp only [TableCell.mk.injEq]
          intro hcon
          simp at hcon
          omega
        rw [hkeep, hdrop, List.append_nil]
      refine ⟨?_, ?_, ?_⟩
      · intro c hc hc0
        obtain ⟨i, j, r, cell, _, _, rfl⟩ := mem_htmlTableCells hc
        simp only at hc0
        subst hc0
        simp
      · rw [hfilter]
        show _ = htmlTableHeaders (r0 :: rest)
        rw [htmlTableHeaders, List.map_map]
        have hfun : ((fun (x : TableCell) => x.content) ∘
            (fun (jc : Nat × HCell) =>
              ({ content := pyStrip jc.2.text, row := 0, col := jc.1,
                 isHeader := jc.2.isTh || 0 == 0 } : TableCell))) =
            (fun (c : HCell) => pyStrip c.text) ∘ Prod.snd := rfl
        rw [hfun, ← List.map_map, List.enum_map_snd]
      · have hlen : (buildHtmlTable (r0 :: rest)).headers.length = r0.length := by
          show (htmlTableHeaders (r0 :: rest)).length = r0.length
          rw [htmlTableHeaders, List.length_map]
        rw [hfilter, hlen, List.map_map]
        have hfun : ((fun (x : TableCell) => x.col) ∘
            (fun (jc : Nat × HCell) =>
              ({ content := pyStrip jc.2.text, row := 0, col := jc.1,
                 isHeader := jc.2.isTh || 0 == 0 } : TableCell))) =
            Prod.fst := rfl
        rw [hfun, List.enum_map_fst]

theorem doclingCells_mem {df : DataFrame} {c : TableCell}
    (h : c ∈ doclingTableCells df) :
    (∃ i hcol, df.columns[i]? = some hcol ∧
      c = { content := hcol, row := 0, col := i, isHeader := true }) ∨
    (∃ i j r v, df.rows[i]? = some r ∧ r[j]? = some v ∧
      c = { content := v, row := i + 1, col := j, isHeader := false }) := by
  unfold doclingTableCells at h
  rcases List.mem_append.1 h with h | h
  · rw [List.mem_map] at h
    obtain ⟨⟨i, hcol⟩, hi, rfl⟩ := h
    exact Or.inl ⟨i, hcol, List.mem_enum_iff_getElem?.1 hi, rfl⟩
  · rw [List.mem_flatMap] at h
    obtain ⟨⟨i, r⟩, hir, h⟩ := h
    rw [List.mem_map] at h
    obtain ⟨⟨j, v⟩, hjv, rfl⟩ := h
    exact Or.inr ⟨i, j, r, v, List.mem_enum_iff_getElem?.1 hir,
      List.mem_enum_iff_getElem?.1 hjv, rfl⟩

theorem doclingTableCells_unique (df : DataFrame) :
    ∀ c1 ∈ doclingTableCells df, ∀ c2 ∈ doclingTableCells df,
      c1.row = c2.row → c1.col = c2.col → c1 = c2 := by
  intro c1 h1 c2 h2 hrow hcol
  rcases doclingCells_mem h1 with ⟨i1, g1, hg1, he1⟩ | ⟨i1, j1, r1, v1, hr1, hv1, he1⟩ <;>
    rcases doclingCells_mem h2 with ⟨i2, g2, hg2, he2⟩ | ⟨i2, j2, r2, v2, hr2, hv2, he2⟩
  · have hi : i1 = i2 := by rw [he1, he2] at hcol; exact hcol
    subst hi
    rw [hg1] at hg2
    have hgg : g1 = g2 := Option.some.inj hg2
    subst hgg
    rw [he1, he2]
  · exfalso; rw [he1, he2] at hrow; simp at hrow
  · exfalso; rw [he1, he2] at hrow; simp at hrow
  · have hi : i1 = i2 := by rw [he1, he2] at hrow; simpa using hrow
    have hj : j1 = j2 := by rw [he1, he2] at hcol; exact hcol
    subst hi; subst hj
    rw [hr1] at hr2
    have hrr : r1 = r2 := Option.some.inj hr2
    subst hrr
    rw [hv1] at hv2
    have hvv : v1 = v2 := Option.some.inj hv2
    subst hvv
    rw [he1, he2]

theorem buildDoclingTable_wf (df : DataFrame) :
    TableWf (buildDoclingTable df) := by
  constructor
  · exact doclingTableCells_unique df
  · intro _
    have hfilter :
        ((buildDoclingTable df).cells.filter (fun c => c.row == 0)) =
          df.columns.enum.map (fun ih =>
            ({ content := ih.2, row := 0, col := ih.1,
               isHeader := true } : TableCell)) := by
      show (doclingTableCells df).filter (fun c => c.row == 0) = _
      unfold doclingTableCells
      rw [List.filter_append]
      have hkeep : (df.columns.enum.map (fun ih =>
          ({ content := ih.2, row := 0, col := ih.1,
             isHeader := true } : TableCell))).filter (fun c => c.row == 0) =
          df.columns.enum.map (fun ih =>
            ({ content := ih.2, row := 0, col := ih.1,
               isHeader := true } : TableCell)) := by
        rw [List.filter_eq_self]
        intro a ha
        rw [List.mem_map] at ha
        obtain ⟨ih, _, rfl⟩ := ha
        rfl
      have hdrop : ((df.rows.enum.flatMap (fun ir =>
          ir.2.enum.map (fun jv =>
            ({ content := jv.2, row := ir.1 + 1, col := jv.1,
               isHeader := false } : TableCell))))).filter
            (fun c => c.row == 0) = [] := by
        rw [List.filter_eq_nil_iff]
        intro a ha
        rw [List.mem_flatMap] at ha
        obtain ⟨⟨i, r⟩, _, ha⟩ := ha
        rw [List.mem_map] at ha
        obtain ⟨⟨j, v⟩, _, rfl⟩ := ha
        simp
      rw [hkeep, hdrop, List.append_nil]
    refine ⟨?_, ?_, ?_⟩
    · intro c hc hc0
      rcases doclingCells_mem hc with ⟨i, g, _, rfl⟩ | ⟨i, j, r, v, _, _, rfl⟩
      · rfl
      · exfalso; exact absurd hc0 (by simp)
    · rw [hfilter, List.map_map]
      have hfun : ((fun (x : TableCell) => x.content) ∘
          (fun (ih : Nat × Str) =>
            ({ content := ih.2, row := 0, col := ih.1,
               isHeader := true } : TableCell))) = Prod.snd := rfl
      rw [hfun]
      show List.map Prod.snd df.columns.enum = (buildDoclingTable df).headers
      rw [List.enum_map_snd]
      rfl
    · rw [hfilter, List.map_map]
      have hfun : ((fun (x : TableCell) => x.col) ∘
          (fun (ih : Nat × Str) =>
            ({ content := ih.2, row := 0, col := ih.1,
               isHeader := true } : TableCell))) = Prod.fst := rfl
      rw [hfun]
      show List.map Prod.fst df.columns.enum =
        List.range (buildDoclingTable df).headers.length
      rw [List.enum_map_fst]
      rfl

theorem mem_processHtmlElement_blocks {st : HtmlState} {e : HElem}
    {b : ContentBlock} (h : b ∈ (processHtmlElement st e).blocks) :
    b ∈ st.blocks ∨ b.table = none ∨
    b.table = some (buildHtmlTable e.tableRows) := by
  revert h
  simp only [processHtmlElement]
  split_ifs <;> intro h <;>
    first
      | exact Or.inl h
      | (rcases List.mem_append.1 h with h' | h'
         · exact Or.inl h'
         · simp only [List.mem_singleton] at h'
           subst h'
           first
             | exact Or.inr (Or.inl rfl)
             | exact Or.inr (Or.inr rfl))

theorem html_fold_table_wf (elems : List HElem) :
    ∀ st : HtmlState,
      (∀ b ∈ st.blocks, ∀ t, b.table = some t → TableWf t) →
      ∀ b ∈ (elems.foldl processHtmlElement st).blocks,
        ∀ t, b.table = some t → TableWf t := by
  induction elems with
  | nil => intro st h; exact h
  | cons e es ih =>
    intro st h
    refine ih _ ?_
    intro b hb t ht
    rcases mem_processHtmlElement_blocks hb with hb' | hb' | hb'
    · exact h b hb' t ht
    · rw [hb'] at ht; exact Option.noConfusion ht
    · rw [hb'] at ht
      rw [← Option.some.inj ht]
      exact buildHtmlTable_wf e.tableRows

theorem mem_processDoclingText_blocks {st : DoclingState} {item : DoclingText}
    {b : ContentBlock} (h : b ∈ (processDoclingText st item).blocks) :
    b ∈ st.blocks ∨ b.table = none := by
  revert h
  simp only [processDoclingText]
  split_ifs <;> intro h <;>
    first
      | exact Or.inl h
      | (rcases List.mem_append.1 h with h' | h'
         · exact Or.inl h'
         · simp only [List.mem_singleton] at h'
           subst h'
           exact Or.inr rfl)

theorem docling_texts_fold_table_wf (texts : List DoclingText) :
    ∀ st : DoclingState,
      (∀ b ∈ st.blocks, ∀ t, b.table = some t → TableWf t) →
      ∀ b ∈ (texts.foldl processDoclingText st).blocks,
        ∀ t, b.table = some t → TableWf t := by
  induction texts with
  | nil => intro st h; exact h
  | cons x xs ih =>
    intro st h
    refine ih _ ?_
    intro b hb t ht
    rcases mem_processDoclingText_blocks hb with hb' | hb'
    · exact h b hb' t ht
    · rw [hb'] at ht; exact Option.noConfusion ht

theorem mem_processDoclingTable_blocks {st : DoclingState} {idx : Nat}
    {tb : DoclingTable} {b : ContentBlock}
    (h : b ∈ (processDoclingTable idx st tb).blocks) :
    b ∈ st.blocks ∨ ∃ df, b.table = some (buildDoclingTable df) := by
  cases tb with
  | ok df pageNo =>
    simp only [processDoclingTable] at h
    rcases List.mem_append.1 h with h' | h'
    · exact Or.inl h'
    · simp only [List.mem_singleton] at h'
      subst h'
      exact Or.inr ⟨df, rfl⟩
  | noExport => exact Or.inl h
  | fails msg => exact Or.inl h

theorem docling_tables_fold_table_wf (tables : List DoclingTable) :
    ∀ (idx : Nat) (st : DoclingState),
      (∀ b ∈ st.blocks, ∀ t, b.table = some t → TableWf t) →
      ∀ b ∈ (processDoclingTables idx st tables).blocks,
        ∀ t, b.table = some t → TableWf t := by
  induction tables with
  | nil => intro idx st h; exact h
  | cons x xs ih =>
    intro idx st h
    refine ih _ _ ?_
    intro b hb t ht
    rcases mem_processDoclingTable_blocks hb with hb' | ⟨df, hb'⟩
    · exact h b hb' t ht
    · rw [hb'] at ht
      rw [← Option.some.inj ht]
      exact buildDoclingTable_wf df

/-- C5: every `TableStructure` carried by a block of the HTML normalizer or
of the delegated-binary (docling) adapter satisfies the table invariant:
`(row, col)` pairs are unique, and when `hasHeader` is set every row-0 cell
is a header cell and the row-0 contents, in column order, equal `headers`. -/
theorem c5_table_structure_invariants :
    (∀ (sd : SoupDoc) (content filename : Str) (now : Nat),
      ∀ b ∈ (parse_html_content (some sd) content filename now).blocks,
        ∀ t, b.table = some t → TableWf t) ∧
    (∀ (texts : List DoclingText) (tables : List DoclingTable)
        (extractTables : Bool) (pageCount : Nat) (title exportMd : Option Str)
        (fileContent : List Nat) (filename : Str) (now : Nat),
      ∀ b ∈ (parse_with_docling texts tables extractTables pageCount title
          exportMd fileContent filename now).blocks,
        ∀ t, b.table = some t → TableWf t) := by
  constructor
  · intro sd content filename now b hb t ht
    exact html_fold_table_wf sd.elements ⟨[], [], 0⟩
      (fun b hb => absurd hb (List.not_mem_nil b)) b hb t ht
  · intro texts tables extractTables pageCount title exportMd fileContent
      filename now b hb t ht
    have htexts := docling_texts_fold_table_wf texts ⟨[], [], [], 0⟩
      (fun b hb => absurd hb (List.not_mem_nil b))
    cases extractTables with
    | false => exact htexts b hb t ht
    | true =>
      exact docling_tables_fold_table_wf tables 0 _ htexts b hb t ht

/-- C5 witness: concrete tables taken through both halves of the theorem. -/
theorem c5_table_structure_invariants_witness :
    TableWf (buildHtmlTable [[{ isTh := true, text := "X".toList }]]) ∧
    TableWf (buildDoclingTable ⟨["H".toList], [["v".toList]]⟩) := by
  constructor
  · exact c5_table_structure_invariants.1
      ⟨[⟨"table", [], [], [], [[{ isTh := true, text := "X".toList }]]⟩], [], none⟩
      [] [] 0
      ⟨"table", (buildHtmlTable [[{ isTh := true, text := "X".toList }]]).markdown,
        some 1, 0, none, none, none,
        some (buildHtmlTable [[{ isTh := true, text := "X".toList }]]), none⟩
      (by decide) _ rfl
  · exact c5_table_structure_invariants.2
      [] [DoclingTable.ok ⟨["H".toList], [["v".toList]]⟩ 1] true 1 none none
      [] [] 0
      ⟨"table", (buildDoclingTable ⟨["H".toList], [["v".toList]]⟩).markdown,
        some 1, 0, none, none, none,
        some (buildDoclingTable ⟨["H".toList], [["v".toList]]⟩), none⟩
      (by decide) _ rfl

-- Docling table-loop lemmas (C6)

theorem processDoclingTables_append (xs ys : List DoclingTable) :
    ∀ (i : Nat) (st : DoclingState),
      processDoclingTables i st (xs ++ ys) =
        processDoclingTables (i + xs.length) (processDoclingTables i st xs) ys := by
  induction xs with
  | nil => intro i st; simp [processDoclingTables]
  | cons x xs ih =>
    intro i st
    show processDoclingTables (i + 1) (processDoclingTable i st x) (xs ++ ys) = _
    rw [ih]
    have hidx : i + 1 + xs.length = i + (x :: xs).length := by simp; omega
    rw [hidx]
    rfl

theorem processDoclingTable_blocks_idx {i j : Nat} {st st' : DoclingState}
    (tb : DoclingTable)
    (hb : st.blocks = st'.blocks) (hp : st.position = st'.position) :
    (processDoclingTable i st tb).blocks = (processDoclingTable j st' tb).blocks ∧
    (processDoclingTable i st tb).position =
      (processDoclingTable j st' tb).position := by
  cases tb with
  | ok df pageNo => constructor <;> simp [processDoclingTable, hb, hp]
  | noExport => exact ⟨hb, hp⟩
  | fails msg => exact ⟨hb, hp⟩

theorem processDoclingTables_blocks_idx (ts : List DoclingTable) :
    ∀ (i j : Nat) (st st' : DoclingState),
      st.blocks = st'.blocks → st.position = st'.position →
      (processDoclingTables i st ts).blocks =
        (processDoclingTables j st' ts).blocks ∧
      (processDoclingTables i st ts).position =
        (processDoclingTables j st' ts).position := by
  induction ts with
  | nil => intro i j st st' hb hp; exact ⟨hb, hp⟩
  | cons t ts ih =>
    intro i j st st' hb hp
    obtain ⟨gb, gp⟩ := @processDoclingTable_blocks_idx i j st st' t hb hp
    exact ih _ _ _ _ gb gp

theorem processDoclingTables_warnings_nofail (ts : List DoclingTable) :
    ∀ (i : Nat) (st : DoclingState),
      (∀ t ∈ ts, isFailsTable t = false) →
      (processDoclingTables i st ts).warnings = st.warnings := by
  induction ts with
  | nil => intro i st _; rfl
  | cons t ts ih =>
    intro i st hnf
    have ht := hnf t (List.mem_cons_self _ _)
    show (processDoclingTables (i + 1) (processDoclingTable i st t) ts).warnings = _
    rw [ih _ _ (fun x hx => hnf x (List.mem_cons_of_mem _ hx))]
    cases t with
    | ok df p => rfl
    | noExport => rfl
    | fails m => simp [isFailsTable] at ht

theorem docling_texts_warnings (texts : List DoclingText) :
    ∀ st : DoclingState, (texts.foldl processDoclingText st).warnings = st.warnings := by
  induction texts with
  | nil => intro st; rfl
  | cons x xs ih =>
    intro st
    rw [List.foldl_cons, ih]
    simp only [processDoclingText]
    split_ifs <;> rfl

/-- C6: when the backend call succeeds and the conversion of exactly one
tabular object fails, the docling adapter records exactly one warning with
code `TABLE_EXTRACTION_FAILED`, the emitted blocks are exactly those of the
same document without the failing table (so nothing else is removed or
reordered), and `success` stays `true`. -/
theorem c6_single_table_failure (texts : List DoclingText)
    (pre post : List DoclingTable) (msg : Str) (pageCount : Nat)
    (title exportMd : Option Str) (fileContent : List Nat) (filename : Str)
    (now : Nat)
    (hpre : ∀ t ∈ pre, isFailsTable t = false)
    (hpost : ∀ t ∈ post, isFailsTable t = false) :
    (parse_with_docling texts (pre ++ DoclingTable.fails msg :: post) true
        pageCount title exportMd fileContent filename now).blocks =
      (parse_with_docling texts (pre ++ post) true pageCount title exportMd
        fileContent filename now).blocks ∧
    (parse_with_docling texts (pre ++ DoclingTable.fails msg :: post) true
        pageCount title exportMd fileContent filename now).warnings.map
        (fun w => w.code) = ["TABLE_EXTRACTION_FAILED"] ∧
    (parse_with_docling texts (pre ++ DoclingTable.fails msg :: post) true
        pageCount title exportMd fileContent filename now).success = true := by
  have hA : (parse_with_docling texts (pre ++ DoclingTable.fails msg :: post)
      true pageCount title exportMd fileContent filename now).blocks =
      (processDoclingTables 0 (texts.foldl processDoclingText ⟨[], [], [], 0⟩)
        (pre ++ DoclingTable.fails msg :: post)).blocks := rfl
  have hB : (parse_with_docling texts (pre ++ post) true pageCount title
      exportMd fileContent filename now).blocks =
      (processDoclingTables 0 (texts.foldl processDoclingText ⟨[], [], [], 0⟩)
        (pre ++ post)).blocks := rfl
  have hW : (parse_with_docling texts (pre ++ DoclingTable.fails msg :: post)
      true pageCount title exportMd fileContent filename now).warnings =
      (processDoclingTables 0 (texts.foldl processDoclingText ⟨[], [], [], 0⟩)
        (pre ++ DoclingTable.fails msg :: post)).warnings := rfl
  refine ⟨?_, ?_, rfl⟩
  · rw [hA, hB, processDoclingTables_append, processDoclingTables_append]
    exact (processDoclingTables_blocks_idx post (0 + pre.length + 1)
      (0 + pre.length)
      (processDoclingTable (0 + pre.length)
        (processDoclingTables 0
          (texts.foldl processDoclingText ⟨[], [], [], 0⟩) pre)
        (DoclingTable.fails msg))
      (processDoclingTables 0
        (texts.foldl processDoclingText ⟨[], [], [], 0⟩) pre)
      rfl rfl).1
  · rw [hW, processDoclingTables_append]
    have hstep : processDoclingTables 0
        (texts.foldl processDoclingText ⟨[], [], [], 0⟩)
        (pre ++ DoclingTable.fails msg :: post) =
        processDoclingTables (0 + pre.length)
          (processDoclingTables 0
            (texts.foldl processDoclingText ⟨[], [], [], 0⟩) pre)
          (DoclingTable.fails msg :: post) :=
      processDoclingTables_append pre (DoclingTable.fails msg :: post) 0 _
    show (processDoclingTables (0 + pre.length + 1)
        (processDoclingTable (0 + pre.length)
          (processDoclingTables 0
            (texts.foldl processDoclingText ⟨[], [], [], 0⟩) pre)
          (DoclingTable.fails msg)) post).warnings.map (fun w => w.code) = _
    rw [processDoclingTables_warnings_nofail post _ _ hpost]
    simp only [processDoclingTable]
    rw [processDoclingTables_warnings_nofail pre _ _ hpre,
      docling_texts_warnings texts]
    rfl

/-- C6 witness: one well-formed text element, one convertible table and one
failing table, taken through the theorem. -/
theorem c6_single_table_failure_witness :
    (parse_with_docling [⟨"hello".toList, "paragraph".toList, 1⟩]
        [DoclingTable.ok ⟨["H".toList], [["v".toList]]⟩ 1,
         DoclingTable.fails "boom".toList] true 1 none none [] [] 0).blocks =
      (parse_with_docling [⟨"hello".toList, "paragraph".toList, 1⟩]
        [DoclingTable.ok ⟨["H".toList], [["v".toList]]⟩ 1] true 1 none none
        [] [] 0).blocks ∧
    (parse_with_docling [⟨"hello".toList, "paragraph".toList, 1⟩]
        [DoclingTable.ok ⟨["H".toList], [["v".toList]]⟩ 1,
         DoclingTable.fails "boom".toList] true 1 none none [] [] 0).warnings.map
        (fun w => w.code) = ["TABLE_EXTRACTION_FAILED"] ∧
    (parse_with_docling [⟨"hello".toList, "paragraph".toList, 1⟩]
        [DoclingTable.ok ⟨["H".toList], [["v".toList]]⟩ 1,
         DoclingTable.fails "boom".toList] true 1 none none [] [] 0).success =
      true :=
  c6_single_table_failure [⟨"hello".toList, "paragraph".toList, 1⟩]
    [DoclingTable.ok ⟨["H".toList], [["v".toList]]⟩ 1] [] "boom".toList 1
    none none [] [] 0 (by decide) (by decide)

/-- C9: for every byte sequence within the size limit whose filename
detects as a native format (`md`, `txt`, `html`), the dispatch layer always
returns a parsed document: decoding uses `errors='replace'`, which is total
(modelled by the total `utf8DecodeReplace`), so arbitrary — even
non-UTF-8 — bytes never cause a decode failure on these paths. -/
theorem c9_native_routes_total (fileContent : List Nat) (filename : Str)
    (soupFor : Option (Str → SoupDoc))
    (doclingBackend : Option (List Nat → Str → ParsedDocument)) (now : Nat)
    (hsize : fileContent.length ≤ MAX_FILE_SIZE)
    (hfmt : get_format_from_filename filename = some "md" ∨
            get_format_from_filename filename = some "txt" ∨
            get_format_from_filename filename = some "html") :
    ∃ doc, parse_endpoint fileContent filename soupFor doclingBackend now =
      Except.ok doc := by
  have hnl : ¬(MAX_FILE_SIZE < fileContent.length) := not_lt.2 hsize
  rcases hfmt with h | h | h
  · exact ⟨parse_markdown_content (utf8DecodeReplace fileContent) filename now,
      by simp [parse_endpoint, hnl, h]⟩
  · exact ⟨parse_txt_content (utf8DecodeReplace fileContent) filename now,
      by simp [parse_endpoint, hnl, h]⟩
  · exact ⟨parse_html_content
        (soupFor.map (fun f => f (utf8DecodeReplace fileContent)))
        (utf8DecodeReplace fileContent) filename now,
      by simp [parse_endpoint, hnl, h]⟩

/-- C9 witness: invalid UTF-8 bytes routed to the Markdown normalizer. -/
theorem c9_native_routes_total_witness :
    ∃ doc, parse_endpoint [255, 254] "a.md".toList none none 5 =
      Except.ok doc :=
  c9_native_routes_total [255, 254] "a.md".toList none none 5 (by decide)
    (Or.inl (by decide))
